import Mathlib

/-!
A shallow embedding of the cleaning pipeline `clean_data` from `src/app.py`
(ZhishenLin/BMS2025), together with theorems settling the specification
claims about it.

The program is a pandas pipeline:
  1. read the file into a dataframe (loader, out of scope here: we model a
     loaded dataframe as a list of typed columns);
  2. rename columns through a fixed header mapping;
  3. for every column whose (mapped) name contains "date" (case-insensitive),
     `pd.to_datetime(..., errors="coerce")`;
  4. for every column of dtype object, replace the sentinel strings
     "N/A", "NA", "<0.3" by NaN and `pd.to_numeric(..., errors="coerce")`;
  5. impute: numeric (float64/int64) columns are `fillna(mean)`, all other
     columns `fillna(mode()[0])` (which raises a KeyError when the mode of an
     entirely-missing column is empty);
  6. `drop_duplicates` (row-wise, keep first, NaN compares equal);
  7. build the Metadata Report from the *final* dataframe and write both
     sections out (the writing itself is out of scope).

Machine floats are modelled by ℚ (all arithmetic in the claims is exact),
pandas datetimes by an integer time key ordered chronologically, and NaN/NaT
by an explicit `missing` cell.
-/

namespace App

/-- A single dataframe cell: NaN/NaT, a numeric value (float64/int64 modelled
by ℚ), a Python string, or a datetime (modelled by an integer key ordered
chronologically). -/
inductive Cell where
  | missing
  | num (q : ℚ)
  | str (s : String)
  | date (d : ℤ)
deriving DecidableEq

/-- Pandas storage dtype of a column.  `numeric` covers both float64 and
int64 (the code tests `dtype == "float64" or dtype == "int64"`, and both take
the same imputation branch). -/
inductive DType where
  | numeric
  | object
  | datetime
deriving DecidableEq

/-- A named dataframe column with its dtype and cells. -/
structure Col where
  name : String
  dtype : DType
  cells : List Cell
deriving DecidableEq

/-- A dataframe, column-major, in column order. -/
abbrev DF := List Col

/-- A dataframe row (one cell per column, in column order). -/
abbrev Row := List Cell

/-! ### String helpers (substring test, lowercasing is `String.toLower`) -/

/-- `listStartsWith needle hay`: `needle` is an initial segment of `hay`. -/
def listStartsWith : List Char → List Char → Bool
  | [], _ => true
  | _ :: _, [] => false
  | a :: as, b :: bs => a = b && listStartsWith as bs

/-- `hasSub needle hay`: `needle` occurs contiguously inside `hay`
(Python's `in` operator on strings). -/
def hasSub (needle : List Char) : List Char → Bool
  | [] => listStartsWith needle []
  | c :: rest => listStartsWith needle (c :: rest) || hasSub needle rest

/-- ASCII lowercasing of one character (`str.lower()`; the header strings the
program handles are ASCII). -/
def lowerChar (c : Char) : Char :=
  if 'A' ≤ c ∧ c ≤ 'Z' then Char.ofNat (c.toNat + 32) else c

/-- `"date" in col.lower()` from line 49 of `src/app.py`. -/
def hasDateName (s : String) : Bool :=
  hasSub "date".toList (s.toList.map lowerChar)

/-! ### Numeric parsing (model of `pd.to_numeric` on decimal literals) -/

/-- Numeric value of a digit list, most significant first. -/
def natOfDigits (cs : List Char) : ℕ :=
  cs.foldl (fun a c => 10 * a + (c.toNat - 48)) 0

/-- All characters are decimal digits and the list is nonempty. -/
def isDigits (cs : List Char) : Bool :=
  !cs.isEmpty && cs.all (fun c => c.isDigit)

/-- Parse an unsigned decimal literal (`"12"`, `"12.5"`, `"12."`, `".5"`). -/
def parseUnsigned (cs : List Char) : Option ℚ :=
  let ip := cs.takeWhile (fun c => c ≠ '.')
  let rest := cs.dropWhile (fun c => c ≠ '.')
  match rest with
  | [] => if isDigits ip then some (natOfDigits ip) else none
  | _ :: frac =>
      if (isDigits ip || ip.isEmpty) && (isDigits frac || frac.isEmpty)
          && !(ip.isEmpty && frac.isEmpty) then
        some ((natOfDigits ip : ℚ) + (natOfDigits frac : ℚ) / (10 ^ frac.length : ℚ))
      else none

/-- Model of `pd.to_numeric` on a single string: parse it as an integer or
floating-point decimal literal, with an optional sign. -/
def parseNumeric (s : String) : Option ℚ :=
  match s.toList with
  | [] => none
  | '-' :: rest => (parseUnsigned rest).map (fun q => -q)
  | '+' :: rest => parseUnsigned rest
  | cs => parseUnsigned cs

/-! ### Date parsing (model of `pd.to_datetime` with `errors="coerce"`) -/

/-- Model of `pd.to_datetime` on a single string, restricted to ISO
`YYYY-MM-DD` literals; the returned key `y*10000 + m*100 + d` is ordered
chronologically, which is all later stages use. -/
def parseDate (s : String) : Option ℤ :=
  match s.toList with
  | [y1, y2, y3, y4, '-', m1, m2, '-', d1, d2] =>
      if isDigits [y1, y2, y3, y4] && isDigits [m1, m2] && isDigits [d1, d2] then
        let m := natOfDigits [m1, m2]
        let d := natOfDigits [d1, d2]
        if 1 ≤ m && m ≤ 12 && 1 ≤ d && d ≤ 31 then
          some ((natOfDigits [y1, y2, y3, y4] : ℤ) * 10000 + (m : ℤ) * 100 + (d : ℤ))
        else none
      else none
  | _ => none

/-- `pd.to_datetime(cell, errors="coerce")` on one cell: strings parse or
become NaT, numbers are epoch offsets (kept as a date key), NaN stays NaT. -/
def toDateCell : Cell → Cell
  | .missing => .missing
  | .str s =>
      match parseDate s with
      | some d => .date d
      | none => .missing
  | .num q => .date (Int.fdiv q.num q.den)
  | .date d => .date d

/-! ### Pipeline stage 1: header mapping (lines 36-45 of `src/app.py`) -/

/-- The fixed `header_mapping` dict of `clean_data`, as a total function
(`dict.get(h, h)` semantics, which is also what `DataFrame.rename` does). -/
def headerMapping (s : String) : String :=
  if s = "Sample_ID" then "Sample ID"
  else if s = "Test_Date" then "Test Date"
  else if s = "Temp (°C)" then "Temperature (°C)"
  else if s = "Result_Value" then "Result Value"
  else s

/-- `df.rename(columns=header_mapping)`: rewrite every column name through
the mapping, leaving dtypes, cells, order and count untouched. -/
def renameColumns (df : DF) : DF :=
  df.map (fun c => { c with name := headerMapping c.name })

/-! ### Pipeline stage 2: date coercion (lines 48-50) -/

/-- One iteration of the date loop: if the (mapped) column name contains
"date" case-insensitively, coerce every cell with `pd.to_datetime`
(failures become NaT, never an error) and the dtype becomes datetime64;
otherwise leave the column untouched. -/
def coerceDateCol (c : Col) : Col :=
  if hasDateName c.name then
    { c with dtype := .datetime, cells := c.cells.map toDateCell }
  else c

/-- The date-coercion pass over the whole dataframe. -/
def dateCoerceDF (df : DF) : DF := df.map coerceDateCol

/-! ### Pipeline stage 3: sentinel replacement + numeric coercion (lines 52-55) -/

/-- The sentinel tokens replaced by NaN on object columns (line 54). -/
def sentinels : List String := ["N/A", "NA", "<0.3"]

/-- `df[col].replace({"N/A": nan, "NA": nan, "<0.3": nan})` on one cell. -/
def replaceSentinel : Cell → Cell
  | .str s => if s ∈ sentinels then .missing else .str s
  | c => c

/-- `pd.to_numeric(cell, errors="coerce")`: numbers pass through, strings
parse or become NaN, anything else becomes NaN; never an error. -/
def toNumericCell : Cell → Cell
  | .missing => .missing
  | .num q => .num q
  | .str s =>
      match parseNumeric s with
      | some q => .num q
      | none => .missing
  | .date _ => .missing

/-- One iteration of the numeric loop: object (free-form text) columns get
sentinel replacement then numeric coercion, and their dtype becomes numeric;
non-object columns are untouched.  (`select_dtypes(include=["object"])`.) -/
def coerceNumCol (c : Col) : Col :=
  if c.dtype = .object then
    { c with dtype := .numeric,
             cells := c.cells.map (fun x => toNumericCell (replaceSentinel x)) }
  else c

/-- The sentinel/numeric pass over the whole dataframe. -/
def numCoerceDF (df : DF) : DF := df.map coerceNumCol

/-- All three structural stages, in the order `clean_data` runs them. -/
def coerced (df : DF) : DF := numCoerceDF (dateCoerceDF (renameColumns df))

/-! ### Pipeline stage 4: imputation (lines 57-62) -/

/-- The non-missing (non-NaN) cells of a column. -/
def nonMissing (cells : List Cell) : List Cell :=
  cells.filter (fun x => decide (x ≠ Cell.missing))

/-- The numeric values of a column's cells. -/
def cellNums (cells : List Cell) : List ℚ :=
  cells.filterMap (fun x =>
    match x with
    | .num q => some q
    | _ => none)

/-- `df[col].mean()`: the arithmetic mean of the non-missing numeric values,
or NaN (`none`) when there are none. -/
def meanOpt (cells : List Cell) : Option ℚ :=
  let qs := cellNums cells
  if qs.isEmpty then none else some (qs.sum / (qs.length : ℚ))

/-- `fillna(v)`: replace every missing cell by `v`. -/
def fillMissing (v : Cell) (cells : List Cell) : List Cell :=
  cells.map (fun x => if x = Cell.missing then v else x)

/-- `df[col].fillna(df[col].mean())` on a numeric column.  When the column is
entirely missing the mean is NaN and `fillna(NaN)` is a no-op. -/
def imputeNumeric (cells : List Cell) : List Cell :=
  match meanOpt cells with
  | some m => fillMissing (.num m) cells
  | none => cells

/-- Pandas ordering of cells of like kind (numeric, string, datetime):
`Series.mode()` returns its result *sorted ascending* in this order.
Unlike kinds are ranked arbitrarily but totally (a well-typed column never
mixes kinds). -/
def cellRank : Cell → ℕ
  | .missing => 0
  | .num _ => 1
  | .str _ => 2
  | .date _ => 3

/-- Lexicographic order on strings as character lists (Python `<` on str). -/
def charListLE : List Char → List Char → Bool
  | [], _ => true
  | _ :: _, [] => false
  | a :: as, b :: bs => if a = b then charListLE as bs else decide (a < b)

/-- Total order on cells used to model the sorted output of `mode()`. -/
def cellLE (a b : Cell) : Bool :=
  match a, b with
  | .num p, .num q => decide (p ≤ q)
  | .str s, .str t => charListLE s.toList t.toList
  | .date d, .date e => decide (d ≤ e)
  | x, y => decide (cellRank x ≤ cellRank y)

/-- The largest multiplicity of any non-missing value in the column. -/
def maxCount (cells : List Cell) : ℕ :=
  ((nonMissing cells).map (fun v => (nonMissing cells).count v)).foldr max 0

/-- The non-missing values achieving the largest multiplicity (with
repetitions; only their minimum is used). -/
def tiedModes (cells : List Cell) : List Cell :=
  (nonMissing cells).filter (fun v => (nonMissing cells).count v == maxCount cells)

/-- Minimum of a list of cells under `cellLE` (empty list: none). -/
def minCell : List Cell → Option Cell
  | [] => none
  | x :: xs => some (xs.foldl (fun a b => if cellLE a b then a else b) x)

/-- `df[col].mode()[0]`: `mode()` lists the most frequent non-missing values
in ascending sorted order, so `[0]` is the smallest of them; `none` models the
KeyError raised by `[0]` when the column has no non-missing value. -/
def modeCell (cells : List Cell) : Option Cell :=
  minCell (tiedModes cells)

/-- The error a `clean_data` run can raise: `df[col].mode()[0]` on an
entirely-missing non-numeric column raises a KeyError (the code has no
error handling of its own). -/
inductive CleanError where
  | modeIndexError (colName : String)
deriving DecidableEq

/-- One iteration of the imputation loop (lines 58-62): numeric columns are
`fillna(mean)`, all other columns `fillna(mode()[0])`, which raises when the
mode is empty. -/
def imputeCol (c : Col) : Except CleanError Col :=
  if c.dtype = .numeric then
    .ok { c with cells := imputeNumeric c.cells }
  else
    match modeCell c.cells with
    | none => .error (.modeIndexError c.name)
    | some m => .ok { c with cells := fillMissing m c.cells }

/-- The imputation loop over all columns, stopping at the first error. -/
def imputeDF : DF → Except CleanError DF
  | [] => .ok []
  | c :: cs =>
    match imputeCol c, imputeDF cs with
    | .ok c', .ok cs' => .ok (c' :: cs')
    | .error e, _ => .error e
    | .ok _, .error e => .error e

/-! ### Pipeline stage 5: deduplication (lines 64-65) -/

/-- Number of rows of the dataframe (all columns have equal length). -/
def nRows : DF → ℕ
  | [] => 0
  | c :: _ => c.cells.length

/-- The rows of a column-major dataframe, in order. -/
def rowsOf (df : DF) : List Row :=
  (List.range (nRows df)).map (fun i => df.map (fun c => c.cells.getD i Cell.missing))

/-- Keep-first row deduplication with an accumulator of rows already seen
(`drop_duplicates`; pandas compares NaN equal to NaN here, as does `=` on
`Cell`). -/
def dedupGo (seen : List Row) : List Row → List Row
  | [] => []
  | r :: rs => if r ∈ seen then dedupGo seen rs else r :: dedupGo (r :: seen) rs

/-- `df.drop_duplicates()` on the row list: drop every row equal to an
earlier one, keep first occurrences, preserve order. -/
def dedupRows (l : List Row) : List Row := dedupGo [] l

/-- Rebuild columns (names and dtypes of `df`, column `j` taking the `j`-th
entry of every surviving row). -/
def fromRowsGo (rs : List Row) : ℕ → DF → DF
  | _, [] => []
  | j, c :: cs =>
      { c with cells := rs.map (fun r => r.getD j Cell.missing) } :: fromRowsGo rs (j + 1) cs

/-- `df.drop_duplicates(inplace=True)` on the dataframe. -/
def dedupDF (df : DF) : DF := fromRowsGo (dedupRows (rowsOf df)) 0 df

/-! ### Pipeline stage 6: metadata report (lines 67-75) -/

/-- `isnull().sum()` for one column. -/
def countMissing (cells : List Cell) : ℕ := cells.count Cell.missing

/-- `nunique()` for one column: distinct non-missing values. -/
def nunique (cells : List Cell) : ℕ := (nonMissing cells).dedup.length

/-- The Metadata Report sheet: one list per report field, indexed by final
column position. -/
structure Metadata where
  originalHeaders : List String
  mappedHeaders : List String
  columnTypes : List DType
  missingValues : List ℕ
  uniqueValues : List ℕ
deriving DecidableEq

/-- Lines 68-75: the report is built from the original header list and the
*final* dataframe `df` (the one already imputed and deduplicated). -/
def mkMetadata (originals : List String) (df : DF) : Metadata :=
  { originalHeaders := originals
    mappedHeaders := originals.map headerMapping
    columnTypes := df.map (fun c => c.dtype)
    missingValues := df.map (fun c => countMissing c.cells)
    uniqueValues := df.map (fun c => nunique c.cells) }

-- Decidable equality of run results, for evaluating the pipeline on
-- concrete inputs.
deriving instance DecidableEq for Except

/-- The whole of `clean_data` (lines 26-83) after loading: header mapping,
date coercion, sentinel/numeric coercion, imputation, deduplication, and the
metadata report; the result models the two sheets of the written artifact. -/
def clean_data (df : DF) : Except CleanError (DF × Metadata) :=
  let originals := df.map (fun c => c.name)
  (imputeDF (coerced df)).map (fun df4 =>
    let df5 := dedupDF df4
    (df5, mkMetadata originals df5))

/-!
### Theorems

The arithmetic of the pipeline is on ℚ; Batteries marks the `Rat` field
operations `@[irreducible]`, which only hides them from elaboration-time
unfolding (the kernel ignores reducibility), so we restore the default for
concrete evaluation by `decide`.
-/

attribute [local semireducible] Rat.add Rat.mul Rat.inv Rat.sub Rat.ofScientific

/-! #### General list lemmas -/

theorem mapSelf {α : Type} (l : List α) (f : α → α) (h : ∀ x ∈ l, f x = x) :
    l.map f = l := by
  induction l with
  | nil => rfl
  | cons a t ih =>
      simp only [List.map_cons]
      rw [h a (by simp), ih (fun x hx => h x (by simp [hx]))]

theorem fillMissing_of_not_mem (v : Cell) (cells : List Cell)
    (h : Cell.missing ∉ cells) : fillMissing v cells = cells := by
  unfold fillMissing
  refine mapSelf cells _ (fun x hx => ?_)
  rw [if_neg]
  intro he
  exact h (he ▸ hx)

theorem not_missing_mem_fillMissing (v : Cell) (cells : List Cell)
    (hv : v ≠ Cell.missing) : Cell.missing ∉ fillMissing v cells := by
  unfold fillMissing
  intro hmem
  obtain ⟨x, _, hx⟩ := List.mem_map.mp hmem
  by_cases hxm : x = Cell.missing
  · rw [if_pos hxm] at hx; exact hv hx
  · rw [if_neg hxm] at hx; exact hxm hx

/-! #### Claim C8: header normalization -/

/-- C8: header normalization renames exactly the names in the fixed header
mapping; every other name is kept verbatim, dtypes, cells, column order and
column count are unchanged, and the mapping is idempotent (mapping an
already-mapped name leaves it unchanged). -/
theorem C8_header_mapping :
    (∀ df : DF, (renameColumns df).map (fun c => c.name) =
        df.map (fun c => headerMapping c.name)) ∧
    (∀ df : DF, (renameColumns df).length = df.length) ∧
    (∀ df : DF, (renameColumns df).map (fun c => c.dtype) = df.map (fun c => c.dtype) ∧
        (renameColumns df).map (fun c => c.cells) = df.map (fun c => c.cells)) ∧
    (∀ s : String, s ≠ "Sample_ID" → s ≠ "Test_Date" → s ≠ "Temp (°C)" →
        s ≠ "Result_Value" → headerMapping s = s) ∧
    (∀ s : String, headerMapping (headerMapping s) = headerMapping s) := by
  refine ⟨?_, ?_, ?_, ?_, ?_⟩
  · intro df; simp [renameColumns, List.map_map]
  · intro df; simp [renameColumns]
  · intro df; constructor <;> simp [renameColumns, List.map_map]
  · intro s h1 h2 h3 h4; simp [headerMapping, h1, h2, h3, h4]
  · intro s
    by_cases h1 : s = "Sample_ID"
    · subst h1; decide
    by_cases h2 : s = "Test_Date"
    · subst h2; decide
    by_cases h3 : s = "Temp (°C)"
    · subst h3; decide
    by_cases h4 : s = "Result_Value"
    · subst h4; decide
    have e : headerMapping s = s := by simp [headerMapping, h1, h2, h3, h4]
    rw [e, e]

/-- C8 witness: an unmapped name passes through verbatim and the mapping is
idempotent on an already-mapped form. -/
theorem C8_witness :
    headerMapping "Lab" = "Lab" ∧
    headerMapping (headerMapping "Temp (°C)") = headerMapping "Temp (°C)" :=
  ⟨C8_header_mapping.2.2.2.1 "Lab" (by decide) (by decide) (by decide) (by decide),
   C8_header_mapping.2.2.2.2 "Temp (°C)"⟩

/-! #### Claim C9: date coercion -/

/-- C9: a column is date-parsed exactly when its (mapped) name contains the
case-insensitive substring "date"; every cell of such a column is parsed and
parse failures become missing instead of raising (the coercion is a total
function); columns without "date" in their name are untouched by this pass. -/
theorem C9_date_coercion :
    (∀ c : Col, hasDateName c.name = false → coerceDateCol c = c) ∧
    (∀ c : Col, hasDateName c.name = true →
        coerceDateCol c = { c with
          dtype := DType.datetime
          cells := c.cells.map toDateCell }) ∧
    (∀ df : DF, dateCoerceDF df = df.map coerceDateCol) ∧
    (∀ s : String, parseDate s = none → toDateCell (Cell.str s) = Cell.missing) ∧
    (∀ s : String, ∀ d : ℤ, parseDate s = some d → toDateCell (Cell.str s) = Cell.date d) ∧
    (∀ x : Cell, toDateCell x = Cell.missing ∨ ∃ d, toDateCell x = Cell.date d) := by
  refine ⟨?_, ?_, fun _ => rfl, ?_, ?_, ?_⟩
  · intro c h; unfold coerceDateCol; rw [if_neg (by simp [h])]
  · intro c h; unfold coerceDateCol; rw [if_pos h]
  · intro s h; simp [toDateCell, h]
  · intro s d h; simp [toDateCell, h]
  · intro x
    cases x with
    | missing => left; rfl
    | num q => right; exact ⟨_, rfl⟩
    | str s =>
        cases h : parseDate s with
        | none => left; simp [toDateCell, h]
        | some d => right; exact ⟨d, by simp [toDateCell, h]⟩
    | date d => right; exact ⟨d, rfl⟩

/-- C9 witness: a non-date column is untouched, a date column has its
unparseable cell coerced to missing, and an ISO date parses. -/
theorem C9_witness :
    coerceDateCol ⟨"Sample ID", DType.object, [Cell.str "A1"]⟩ =
      ⟨"Sample ID", DType.object, [Cell.str "A1"]⟩ ∧
    coerceDateCol ⟨"Test Date", DType.object, [Cell.str "bad"]⟩ =
      ⟨"Test Date", DType.datetime, [Cell.missing]⟩ ∧
    toDateCell (Cell.str "2021-01-05") = Cell.date 20210105 :=
  ⟨C9_date_coercion.1 _ (by decide),
   (C9_date_coercion.2.1 _ (by decide)).trans (by decide),
   C9_date_coercion.2.2.2.2.1 "2021-01-05" 20210105 (by decide)⟩

/-! #### Claim C10: sentinel replacement and numeric coercion -/

/-- C10: on every free-form text (object) column the pass first replaces
sentinel tokens by missing and then numerically parses the remaining cells,
each unparseable cell becoming missing by itself; the pass is a total
function (never an error) and non-object columns are untouched. -/
theorem C10_sentinel_numeric :
    (∀ c : Col, c.dtype = DType.object →
        coerceNumCol c = { c with
          dtype := DType.numeric
          cells := c.cells.map (fun x => toNumericCell (replaceSentinel x)) }) ∧
    (∀ c : Col, c.dtype ≠ DType.object → coerceNumCol c = c) ∧
    (∀ s : String, s ∈ sentinels → toNumericCell (replaceSentinel (Cell.str s)) = Cell.missing) ∧
    (∀ s : String, s ∉ sentinels → parseNumeric s = none →
        toNumericCell (replaceSentinel (Cell.str s)) = Cell.missing) ∧
    (∀ s : String, ∀ q : ℚ, s ∉ sentinels → parseNumeric s = some q →
        toNumericCell (replaceSentinel (Cell.str s)) = Cell.num q) := by
  refine ⟨?_, ?_, ?_, ?_, ?_⟩
  · intro c h; unfold coerceNumCol; rw [if_pos h]
  · intro c h; unfold coerceNumCol; rw [if_neg h]
  · intro s h; simp [replaceSentinel, h, toNumericCell]
  · intro s h hp; simp [replaceSentinel, h, toNumericCell, hp]
  · intro s q h hp; simp [replaceSentinel, h, toNumericCell, hp]

/-- C10 witness: the sentinel "N/A" becomes missing, an unparseable
non-sentinel string becomes missing, and "2.5" parses to 5/2. -/
theorem C10_witness :
    toNumericCell (replaceSentinel (Cell.str "N/A")) = Cell.missing ∧
    toNumericCell (replaceSentinel (Cell.str "abc")) = Cell.missing ∧
    toNumericCell (replaceSentinel (Cell.str "2.5")) = Cell.num (5 / 2) :=
  ⟨C10_sentinel_numeric.2.2.1 "N/A" (by decide),
   C10_sentinel_numeric.2.2.2.1 "abc" (by decide) (by decide),
   C10_sentinel_numeric.2.2.2.2 "2.5" (5 / 2) (by decide) (by decide)⟩

/-! #### Imputation and deduplication lemmas -/

theorem imputeDF_numeric (df : DF) (h : ∀ c ∈ df, c.dtype = DType.numeric) :
    imputeDF df = .ok (df.map (fun c => { c with cells := imputeNumeric c.cells })) := by
  induction df with
  | nil => rfl
  | cons c cs ih =>
      have hc : c.dtype = DType.numeric := h c (by simp)
      have hcs := ih (fun x hx => h x (by simp [hx]))
      simp only [imputeDF, imputeCol, if_pos hc, hcs, List.map_cons]

theorem imputeNumeric_of_all_missing (cells : List Cell)
    (h : ∀ x ∈ cells, x = Cell.missing) : imputeNumeric cells = cells := by
  unfold imputeNumeric meanOpt
  have he : cellNums cells = [] := by
    rw [List.eq_nil_iff_forall_not_mem]
    intro q hq
    obtain ⟨x, hx, hxq⟩ := List.mem_filterMap.mp hq
    cases x with
    | num p => exact absurd (h _ hx) (by simp)
    | missing => simp at hxq
    | str s => simp at hxq
    | date d => simp at hxq
  simp [he]

theorem dedupGo_mem (l : List Row) : ∀ (seen : List Row) (r : Row),
    r ∈ dedupGo seen l ↔ r ∈ l ∧ r ∉ seen := by
  induction l with
  | nil => intro seen r; simp [dedupGo]
  | cons a t ih =>
      intro seen r
      by_cases ha : a ∈ seen
      · rw [dedupGo, if_pos ha, ih]
        constructor
        · rintro ⟨h1, h2⟩; exact ⟨by simp [h1], h2⟩
        · rintro ⟨h1, h2⟩
          rcases List.mem_cons.mp h1 with h | h
          · exact absurd (h ▸ ha) h2
          · exact ⟨h, h2⟩
      · rw [dedupGo, if_neg ha]
        constructor
        · intro hm
          rcases List.mem_cons.mp hm with h | h
          · exact ⟨by simp [h], h ▸ ha⟩
          · obtain ⟨h1, h2⟩ := (ih _ _).mp h
            exact ⟨by simp [h1], fun hc => h2 (by simp [hc])⟩
        · rintro ⟨h1, h2⟩
          rcases List.mem_cons.mp h1 with h | h
          · exact h ▸ List.mem_cons_self _ _
          · by_cases hra : r = a
            · exact hra ▸ List.mem_cons_self _ _
            · exact List.mem_cons_of_mem _ ((ih _ _).mpr ⟨h, by simp [h2, hra]⟩)

theorem dedupGo_sublist (l : List Row) : ∀ seen : List Row,
    (dedupGo seen l).Sublist l := by
  induction l with
  | nil => intro seen; simp [dedupGo]
  | cons a t ih =>
      intro seen
      by_cases ha : a ∈ seen
      · rw [dedupGo, if_pos ha]
        exact (ih seen).cons a
      · rw [dedupGo, if_neg ha]
        exact (ih (a :: seen)).cons₂ a

theorem dedupGo_nodup (l : List Row) : ∀ seen : List Row,
    (dedupGo seen l).Nodup := by
  induction l with
  | nil => intro seen; simp [dedupGo]
  | cons a t ih =>
      intro seen
      by_cases ha : a ∈ seen
      · rw [dedupGo, if_pos ha]; exact ih seen
      · rw [dedupGo, if_neg ha]
        refine List.nodup_cons.mpr ⟨fun hc => ?_, ih _⟩
        exact ((dedupGo_mem t _ a).mp hc).2 (by simp)

theorem dedupGo_of_nodup (l : List Row) : ∀ seen : List Row, l.Nodup →
    (∀ r ∈ l, r ∉ seen) → dedupGo seen l = l := by
  induction l with
  | nil => intro seen _ _; rfl
  | cons a t ih =>
      intro seen hn hs
      rw [dedupGo, if_neg (hs a (by simp))]
      have ht := ih (a :: seen) (List.nodup_cons.mp hn).2 (fun r hr => by
        simp only [List.mem_cons, not_or]
        exact ⟨fun hc => (List.nodup_cons.mp hn).1 (hc ▸ hr), hs r (by simp [hr])⟩)
      rw [ht]

theorem fromRowsGo_length (rs : List Row) : ∀ (j : ℕ) (cs : DF),
    (fromRowsGo rs j cs).length = cs.length := by
  intro j cs
  induction cs generalizing j with
  | nil => rfl
  | cons c t ih => simp [fromRowsGo, ih]

theorem fromRowsGo_getElem (rs : List Row) : ∀ (cs : DF) (j k : ℕ)
    (h : k < cs.length) (h2 : k < (fromRowsGo rs j cs).length),
    (fromRowsGo rs j cs)[k] =
      { cs[k] with cells := rs.map (fun r => r.getD (j + k) Cell.missing) } := by
  intro cs
  induction cs with
  | nil => intro j k h h2; simp at h
  | cons c t ih =>
      intro j k h h2
      cases k with
      | zero => simp [fromRowsGo]
      | succ k' =>
          have h' : k' < t.length := by simpa using h
          have h2' : k' < (fromRowsGo rs (j + 1) t).length := by
            rw [fromRowsGo_length]; exact h'
          have := ih (j + 1) k' h' h2'
          simp only [fromRowsGo, List.getElem_cons_succ, this]
          have harith : j + 1 + k' = j + (k' + 1) := by omega
          rw [harith]

theorem rangeMapGetD {α : Type} (l : List α) (d : α) :
    (List.range l.length).map (fun i => l.getD i d) = l := by
  induction l with
  | nil => rfl
  | cons a t ih =>
      have h2 : ∀ i ∈ List.range t.length,
          ((fun i => (a :: t).getD i d) ∘ Nat.succ) i = (fun i => t.getD i d) i :=
        fun i _ => by simp [List.getD_cons_succ]
      simp only [List.length_cons, List.range_succ_eq_map, List.map_cons, List.map_map,
        List.getD_cons_zero]
      rw [List.map_congr_left h2, ih]

theorem getD_of_all_eq (l : List Cell) (d : Cell) (i : ℕ)
    (h : ∀ x ∈ l, x = d) : l.getD i d = d := by
  by_cases hi : i < l.length
  · rw [List.getD_eq_getElem l d hi]
    exact h _ (List.getElem_mem hi)
  · exact List.getD_eq_default l d (by omega)

theorem mem_rowsOf_getD (df : DF) (r : Row) (j : ℕ) (hj : j < df.length)
    (hr : r ∈ rowsOf df) (hm : ∀ x ∈ df[j].cells, x = Cell.missing) :
    r.getD j Cell.missing = Cell.missing := by
  obtain ⟨i, _, hri⟩ := List.mem_map.mp hr
  subst hri
  have hmap : (df.map (fun c => c.cells.getD i Cell.missing)).getD j Cell.missing =
      df[j].cells.getD i Cell.missing := by
    rw [List.getD_eq_getElem _ _ (by simpa using hj), List.getElem_map]
  rw [hmap]
  exact getD_of_all_eq _ _ _ hm

theorem dedupDF_all_missing (df : DF) (j : ℕ) (hj : j < df.length)
    (hm : ∀ x ∈ df[j].cells, x = Cell.missing) :
    ∃ h2 : j < (dedupDF df).length, ∀ x ∈ ((dedupDF df).get ⟨j, h2⟩).cells,
      x = Cell.missing := by
  have hlen : (dedupDF df).length = df.length := fromRowsGo_length _ _ _
  refine ⟨by omega, fun x hx => ?_⟩
  have hget : (dedupDF df).get ⟨j, by omega⟩ =
      { df[j] with
        cells := (dedupRows (rowsOf df)).map (fun r => r.getD (0 + j) Cell.missing) } := by
    rw [List.get_eq_getElem]
    exact fromRowsGo_getElem _ df 0 j hj (by rw [fromRowsGo_length]; exact hj)
  rw [hget] at hx
  obtain ⟨r, hr, hrx⟩ := List.mem_map.mp hx
  have hrmem : r ∈ rowsOf df := (dedupGo_sublist _ _).mem hr
  rw [← hrx]
  have h0j : 0 + j = j := by omega
  rw [h0j]
  exact mem_rowsOf_getD df r j hj hrmem hm

/-- Shared skeleton for C2/C4: when every column of the coerced dataframe is
numeric and some column is entirely missing there, the run succeeds (mean
imputation never raises; `fillna(NaN)` is a no-op) and that column is still
entirely missing in the written output. -/
theorem cleanOkAllMissing (df : DF) (j : ℕ)
    (hall : ∀ c ∈ coerced df, c.dtype = DType.numeric)
    (hj : j < (coerced df).length)
    (hm : ∀ x ∈ ((coerced df).get ⟨j, hj⟩).cells, x = Cell.missing) :
    ∃ out meta, clean_data df = .ok (out, meta) ∧
      ∃ h2 : j < out.length, ∀ x ∈ (out.get ⟨j, h2⟩).cells, x = Cell.missing := by
  have him := imputeDF_numeric (coerced df) hall
  set df4 := (coerced df).map (fun c => { c with cells := imputeNumeric c.cells }) with hdf4
  refine ⟨dedupDF df4, mkMetadata (df.map (fun c => c.name)) (dedupDF df4), ?_, ?_⟩
  · simp only [clean_data, him, Except.map]
  · have hj4 : j < df4.length := by simp [hdf4, hj]
    have hmg : ∀ x ∈ (coerced df)[j].cells, x = Cell.missing := by
      simpa [List.get_eq_getElem] using hm
    have hm4 : ∀ x ∈ df4[j].cells, x = Cell.missing := by
      intro x hx
      have hcell : df4[j] = { (coerced df)[j] with
          cells := imputeNumeric ((coerced df)[j].cells) } := by
        simp [hdf4]
      rw [hcell, imputeNumeric_of_all_missing _ hmg] at hx
      exact hmg x hx
    exact dedupDF_all_missing df4 j hj4 hm4

/-! #### Claim C1: metadata report timing -/

/-- The dataset of the spec's scenario: one column of raw values
`[20.0, "N/A", 22.0]` under the raw header `"Temp (°C)"`. -/
def exC1 : DF := [⟨"Temp (°C)", DType.object, [.str "20.0", .str "N/A", .str "22.0"]⟩]

/-- The cleaned data `clean_data` produces for `exC1`. -/
def exC1clean : DF := [⟨"Temperature (°C)", DType.numeric, [.num 20, .num 21, .num 22]⟩]

/-- The metadata report `clean_data` produces for `exC1`. -/
def exC1meta : Metadata :=
  ⟨["Temp (°C)"], ["Temperature (°C)"], [DType.numeric], [0], [3]⟩

/-- C1 counterexample: on the spec's own scenario column `[20.0, "N/A", 22.0]`
the emitted report records 0 missing values (not 1) and 3 distinct values
(not 2): the counts are taken after imputation and deduplication, not from the
pre-imputation state. -/
theorem C1_counterexample :
    clean_data exC1 = .ok (exC1clean, exC1meta) ∧
    exC1meta.missingValues = [0] ∧ exC1meta.uniqueValues = [3] ∧
    ¬(exC1meta.missingValues = [1] ∧ exC1meta.uniqueValues = [2]) :=
  ⟨by decide, rfl, rfl, by decide⟩

/-- C1 (amended): the Metadata Report's per-column missing-value and
distinct-value counts are computed from the dataset state after imputation
and after deduplication (the final written dataset), so for the scenario
column `[20.0, "N/A", 22.0]` the report records 0 missing values and 3
distinct values. -/
theorem C1_amended (df out : DF) (meta : Metadata)
    (h : clean_data df = .ok (out, meta)) :
    meta.missingValues = out.map (fun c => countMissing c.cells) ∧
    meta.uniqueValues = out.map (fun c => nunique c.cells) := by
  simp only [clean_data] at h
  cases him : imputeDF (coerced df) with
  | error e => rw [him] at h; simp [Except.map] at h
  | ok df4 =>
      rw [him] at h
      simp only [Except.map] at h
      injection h with h'
      injection h' with h1 h2
      subst h1; subst h2
      exact ⟨rfl, rfl⟩

/-- C1 witness: the amended statement evaluated on the scenario input. -/
theorem C1_amended_witness :
    exC1meta.missingValues = exC1clean.map (fun c => countMissing c.cells) ∧
    exC1meta.uniqueValues = exC1clean.map (fun c => nunique c.cells) :=
  C1_amended exC1 exC1clean exC1meta (by decide)

/-! #### Claim C2: entirely-missing column handling -/

/-- The spec's scenario input:
`[{"Sample_ID":"A1","Result_Value":"<0.3"},{"Sample_ID":"A1","Result_Value":"<0.3"}]`. -/
def exC2 : DF :=
  [⟨"Sample_ID", DType.object, [.str "A1", .str "A1"]⟩,
   ⟨"Result_Value", DType.object, [.str "<0.3", .str "<0.3"]⟩]

/-- The cleaned data `clean_data` produces for `exC2`: the two identical
all-missing rows are deduplicated to one, and every cell is still missing. -/
def exC2clean : DF :=
  [⟨"Sample ID", DType.numeric, [.missing]⟩, ⟨"Result Value", DType.numeric, [.missing]⟩]

/-- The metadata report `clean_data` produces for `exC2`. -/
def exC2meta : Metadata :=
  ⟨["Sample_ID", "Result_Value"], ["Sample ID", "Result Value"],
   [DType.numeric, DType.numeric], [1, 1], [0, 0]⟩

/-- C2 counterexample: on the spec's own scenario (both `Result_Value` cells
are the sentinel `"<0.3"`, so the column is entirely missing after coercion)
`clean_data` does not fail at all — no `EmptyColumnError` exists in the code —
and the output still contains missing values. -/
theorem C2_counterexample :
    clean_data exC2 = .ok (exC2clean, exC2meta) ∧
    (clean_data exC2).toOption.isSome = true ∧
    exC2clean.map (fun c => c.cells) = [[Cell.missing], [Cell.missing]] :=
  ⟨by decide, by decide, by decide⟩

/-- C2 (amended): for every input dataset in which every column is numeric
after type coercion and some column is entirely missing there, `clean_data`
succeeds (the mean of an empty column is NaN and `fillna(NaN)` is a no-op, so
no error is raised) and that column's cells are all still missing in the
output, contrary to the claimed `EmptyColumnError`. -/
theorem C2_amended (df : DF) (j : ℕ)
    (hall : ∀ c ∈ coerced df, c.dtype = DType.numeric)
    (hj : j < (coerced df).length)
    (hm : ∀ x ∈ ((coerced df).get ⟨j, hj⟩).cells, x = Cell.missing) :
    ∃ out meta, clean_data df = .ok (out, meta) ∧
      ∃ h2 : j < out.length, ∀ x ∈ (out.get ⟨j, h2⟩).cells, x = Cell.missing :=
  cleanOkAllMissing df j hall hj hm

/-- C2 witness: the amended statement on the scenario input, at the coerced
`Result Value` column (index 1). -/
theorem C2_amended_witness :
    ∃ out meta, clean_data exC2 = .ok (out, meta) ∧
      ∃ h2 : 1 < out.length, ∀ x ∈ (out.get ⟨1, h2⟩).cells, x = Cell.missing :=
  C2_amended exC2 1 (by decide) (by decide) (by decide)

/-! #### No-op lemmas for already-clean data -/

theorem imputeNumeric_of_no_missing (cells : List Cell)
    (h : Cell.missing ∉ cells) : imputeNumeric cells = cells := by
  unfold imputeNumeric
  cases hm : meanOpt cells with
  | none => rfl
  | some m => exact fillMissing_of_not_mem _ _ h

theorem fromRowsGo_rowsOf (df : DF) (hlen : ∀ c ∈ df, c.cells.length = nRows df) :
    fromRowsGo (rowsOf df) 0 df = df := by
  apply List.ext_getElem (fromRowsGo_length _ _ _)
  intro k h1 h2
  rw [fromRowsGo_getElem _ df 0 k h2 h1]
  have hc : (rowsOf df).map (fun r => r.getD (0 + k) Cell.missing) = df[k].cells := by
    simp only [Nat.zero_add]
    unfold rowsOf
    rw [List.map_map]
    have hfun : ∀ i ∈ List.range (nRows df),
        ((fun r => r.getD k Cell.missing) ∘
          fun i => df.map (fun c => c.cells.getD i Cell.missing)) i
          = (fun i => df[k].cells.getD i Cell.missing) i := fun i _ => by
      simp only [Function.comp_apply]
      rw [List.getD_eq_getElem _ _ (by simpa using h2), List.getElem_map]
    rw [List.map_congr_left hfun]
    have hlk : df[k].cells.length = nRows df := hlen _ (List.getElem_mem h2)
    rw [← hlk]
    exact rangeMapGetD _ _
  rw [hc]

/-! #### Claim C3: cleaning already-clean data -/

/-- An already-clean dataset by the claim's criteria: standard header, no
missing cells, no sentinel tokens, no duplicate rows — but its values are
free-form text. -/
def exC3 : DF := [⟨"Sample ID", DType.object, [.str "A1", .str "B2"]⟩]

/-- C3 counterexample: `exC3` has standard headers, no missing values, no
sentinel tokens and no duplicate rows, yet `clean_data` is not a no-op on it:
the text values `"A1"`, `"B2"` are coerced to missing wholesale (and the two
now-identical rows then collapse to one). -/
theorem C3_counterexample :
    exC3.all (fun c => headerMapping c.name == c.name) = true ∧
    exC3.all (fun c => !(c.cells.contains Cell.missing)) = true ∧
    exC3.all (fun c => c.cells.all (fun x => replaceSentinel x == x)) = true ∧
    (rowsOf exC3).Nodup ∧
    clean_data exC3 = .ok ([⟨"Sample ID", DType.numeric, [Cell.missing]⟩],
      ⟨["Sample ID"], ["Sample ID"], [DType.numeric], [1], [0]⟩) ∧
    [(⟨"Sample ID", DType.numeric, [Cell.missing]⟩ : Col)] ≠ exC3 := by decide

/-- C3 (amended): cleaning an already-clean dataset is a no-op on data
content only when every column is already of numeric storage type (free-form
text columns are destroyed by the numeric coercion, see C4, and date-named
columns are re-parsed): with standard headers, no "date" named column, no
missing cells, uniform column length and no duplicate rows, `clean_data`
returns the input unchanged together with its metadata report. -/
theorem C3_amended (df : DF)
    (hnum : ∀ c ∈ df, c.dtype = DType.numeric)
    (hstd : ∀ c ∈ df, headerMapping c.name = c.name)
    (hdate : ∀ c ∈ df, hasDateName c.name = false)
    (hmiss : ∀ c ∈ df, Cell.missing ∉ c.cells)
    (hlen : ∀ c ∈ df, c.cells.length = nRows df)
    (hdup : (rowsOf df).Nodup) :
    clean_data df = .ok (df, mkMetadata (df.map (fun c => c.name)) df) := by
  have hren : renameColumns df = df :=
    mapSelf df _ (fun c hc => by rw [hstd c hc])
  have hdc : dateCoerceDF df = df :=
    mapSelf df _ (fun c hc => by
      unfold coerceDateCol
      rw [if_neg (by simp [hdate c hc])])
  have hnc : numCoerceDF df = df :=
    mapSelf df _ (fun c hc => by
      unfold coerceNumCol
      rw [if_neg (by simp [hnum c hc])])
  have hco : coerced df = df := by rw [coerced, hren, hdc, hnc]
  have him2 : imputeDF df = .ok df := by
    rw [imputeDF_numeric df hnum]
    congr 1
    exact mapSelf df _ (fun c hc => by rw [imputeNumeric_of_no_missing c.cells (hmiss c hc)])
  have hdd : dedupDF df = df := by
    unfold dedupDF dedupRows
    rw [dedupGo_of_nodup _ [] hdup (by simp)]
    exact fromRowsGo_rowsOf df hlen
  simp only [clean_data, hco, him2, Except.map, hdd]

/-- An already-clean all-numeric dataset. -/
def exC3w : DF := [⟨"Temperature (°C)", DType.numeric, [.num 1, .num 2]⟩]

/-- C3 witness: the amended no-op statement on a clean all-numeric dataset. -/
theorem C3_amended_witness :
    clean_data exC3w = .ok (exC3w, mkMetadata (exC3w.map (fun c => c.name)) exC3w) :=
  C3_amended exC3w (by decide) (by decide) (by decide) (by decide) (by decide) (by decide)

/-! #### Order lemmas for the `mode()` model -/

theorem charListLE_refl (cs : List Char) : charListLE cs cs = true := by
  induction cs with
  | nil => rfl
  | cons a t ih => simp [charListLE, ih]

theorem charListLE_total (as : List Char) : ∀ bs : List Char,
    charListLE as bs = true ∨ charListLE bs as = true := by
  induction as with
  | nil => intro bs; left; rfl
  | cons a as ih =>
      intro bs
      cases bs with
      | nil => right; rfl
      | cons b bs =>
          by_cases hab : a = b
          · subst hab
            rcases ih bs with h | h
            · left; simp [charListLE, h]
            · right; simp [charListLE, h]
          · rcases lt_or_gt_of_ne hab with h | h
            · left; simp [charListLE, hab, h]
            · right; simp [charListLE, Ne.symm hab, h]

theorem charListLE_trans (as : List Char) : ∀ bs cs : List Char,
    charListLE as bs = true → charListLE bs cs = true → charListLE as cs = true := by
  induction as with
  | nil => intro bs cs _ _; rfl
  | cons a as ih =>
      intro bs cs hab hbc
      cases bs with
      | nil => simp [charListLE] at hab
      | cons b bs =>
          cases cs with
          | nil => simp [charListLE] at hbc
          | cons c cs =>
              by_cases h1 : a = b
              · subst h1
                simp only [charListLE, if_pos rfl] at hab
                by_cases h2 : a = c
                · subst h2
                  simp only [charListLE, if_pos rfl] at hbc ⊢
                  exact ih bs cs hab hbc
                · simp only [charListLE, if_neg h2] at hbc ⊢
                  exact hbc
              · simp only [charListLE, if_neg h1, decide_eq_true_eq] at hab
                by_cases h2 : b = c
                · subst h2
                  simp [charListLE, if_neg h1, hab]
                · simp only [charListLE, if_neg h2, decide_eq_true_eq] at hbc
                  have hac : a < c := lt_trans hab hbc
                  simp [charListLE, ne_of_lt hac, hac]

theorem cellLE_refl (a : Cell) : cellLE a a = true := by
  cases a <;> simp [cellLE, cellRank, charListLE_refl]

theorem cellLE_total (a b : Cell) : cellLE a b = true ∨ cellLE b a = true := by
  cases a <;> cases b <;>
    simp only [cellLE, cellRank, decide_eq_true_eq] <;>
    first
      | omega
      | exact le_total _ _
      | exact charListLE_total _ _

theorem cellLE_trans (a b c : Cell) (hab : cellLE a b = true) (hbc : cellLE b c = true) :
    cellLE a c = true := by
  cases a <;> cases b <;> cases c <;>
    simp only [cellLE, cellRank, decide_eq_true_eq] at hab hbc ⊢ <;>
    first
      | trivial
      | omega
      | exact le_trans hab hbc
      | exact charListLE_trans _ _ _ hab hbc

theorem foldlMin_mem (xs : List Cell) : ∀ a : Cell,
    xs.foldl (fun p q => if cellLE p q then p else q) a ∈ a :: xs := by
  induction xs with
  | nil => intro a; simp
  | cons x t ih =>
      intro a
      simp only [List.foldl_cons]
      cases h : cellLE a x with
      | true =>
          simp only [h, if_true]
          rcases List.mem_cons.mp (ih a) with h1 | h1
          · simp [h1]
          · simp [h1]
      | false =>
          simp only [h, Bool.false_eq_true, if_false]
          rcases List.mem_cons.mp (ih x) with h1 | h1
          · simp [h1]
          · simp [h1]

theorem foldlMin_le (xs : List Cell) : ∀ a b : Cell, b ∈ a :: xs →
    cellLE (xs.foldl (fun p q => if cellLE p q then p else q) a) b = true := by
  induction xs with
  | nil =>
      intro a b hb
      have : b = a := by simpa using hb
      subst this
      exact cellLE_refl b
  | cons x t ih =>
      intro a b hb
      simp only [List.foldl_cons]
      have h1 : cellLE (if cellLE a x then a else x) a = true := by
        cases h : cellLE a x with
        | true => simp [h, cellLE_refl]
        | false =>
            simp only [h, Bool.false_eq_true, if_false]
            rcases cellLE_total a x with ht | ht
            · rw [h] at ht; cases ht
            · exact ht
      have h2 : cellLE (if cellLE a x then a else x) x = true := by
        cases h : cellLE a x with
        | true => simp [h]
        | false => simp [h, cellLE_refl]
      have hfold : cellLE (t.foldl (fun p q => if cellLE p q then p else q)
          (if cellLE a x then a else x)) (if cellLE a x then a else x) = true :=
        ih _ _ (by simp)
      rcases List.mem_cons.mp hb with hba | hb'
      · subst hba
        exact cellLE_trans _ _ _ hfold h1
      rcases List.mem_cons.mp hb' with hbx | hbt
      · subst hbx
        exact cellLE_trans _ _ _ hfold h2
      · exact ih _ b (by simp [hbt])

theorem minCell_spec (l : List Cell) (hne : l ≠ []) :
    ∃ m, minCell l = some m ∧ m ∈ l ∧ ∀ b ∈ l, cellLE m b = true := by
  cases l with
  | nil => exact absurd rfl hne
  | cons x xs =>
      exact ⟨_, rfl, foldlMin_mem xs x, fun b hb => foldlMin_le xs x b hb⟩

theorem le_foldr_max (l : List ℕ) (x : ℕ) (h : x ∈ l) : x ≤ l.foldr max 0 := by
  induction l with
  | nil => simp at h
  | cons a t ih =>
      rcases List.mem_cons.mp h with h1 | h1
      · subst h1; simp only [List.foldr_cons]; exact le_max_left _ _
      · simp only [List.foldr_cons]; exact le_trans (ih h1) (le_max_right _ _)

theorem foldr_max_mem (l : List ℕ) (h : l ≠ []) : l.foldr max 0 ∈ l ∨ l.foldr max 0 = 0 := by
  induction l with
  | nil => exact absurd rfl h
  | cons a t ih =>
      cases t with
      | nil => left; simp
      | cons b t' =>
          have hfold : (a :: b :: t').foldr max 0 = max a ((b :: t').foldr max 0) := rfl
          rw [hfold]
          rcases max_choice a ((b :: t').foldr max 0) with h2 | h2 <;> rw [h2]
          · left; exact List.mem_cons_self _ _
          · rcases ih (by simp) with h1 | h1
            · left; exact List.mem_cons_of_mem _ h1
            · right; exact h1

theorem maxCount_achieved (cells : List Cell) (hne : nonMissing cells ≠ []) :
    ∃ v ∈ nonMissing cells, (nonMissing cells).count v = maxCount cells := by
  have hmaps : (nonMissing cells).map (fun v => (nonMissing cells).count v) ≠ [] := by
    simp [hne]
  rcases foldr_max_mem _ hmaps with h | h
  · obtain ⟨v, hv, hvc⟩ := List.mem_map.mp h
    exact ⟨v, hv, hvc⟩
  · exfalso
    obtain ⟨x, hx⟩ := List.exists_mem_of_ne_nil _ hne
    have hc : 0 < (nonMissing cells).count x := List.count_pos_iff.mpr hx
    have hle : (nonMissing cells).count x ≤ 0 := by
      have h2 := le_foldr_max ((nonMissing cells).map (fun v => (nonMissing cells).count v))
        ((nonMissing cells).count x) (List.mem_map_of_mem _ hx)
      rw [h] at h2
      exact h2
    omega

theorem modeCell_spec (cells : List Cell) (hne : nonMissing cells ≠ []) :
    ∃ m, modeCell cells = some m ∧ m ∈ nonMissing cells ∧
      (nonMissing cells).count m = maxCount cells ∧
      (∀ v ∈ nonMissing cells, (nonMissing cells).count v ≤ maxCount cells) ∧
      (∀ v ∈ nonMissing cells,
        (nonMissing cells).count v = maxCount cells → cellLE m v = true) := by
  obtain ⟨v0, hv0, hv0c⟩ := maxCount_achieved cells hne
  have htne : tiedModes cells ≠ [] := by
    intro h
    have hv0t : v0 ∈ tiedModes cells := by
      unfold tiedModes
      rw [List.mem_filter]
      exact ⟨hv0, by simp [hv0c]⟩
    rw [h] at hv0t
    simp at hv0t
  obtain ⟨m, hm, hmem, hmin⟩ := minCell_spec _ htne
  have hmem' := List.mem_filter.mp hmem
  refine ⟨m, by unfold modeCell; exact hm, hmem'.1, by simpa using hmem'.2, ?_, ?_⟩
  · intro v hv
    exact le_foldr_max _ _ (List.mem_map_of_mem (fun v => (nonMissing cells).count v) hv)
  · intro v hv hvc
    refine hmin v ?_
    unfold tiedModes
    rw [List.mem_filter]
    exact ⟨hv, by simp [hvc]⟩

/-! #### Imputation success on mixed dataframes (for C4) -/

theorem imputeCol_ok (c : Col)
    (h : c.dtype = DType.numeric ∨ nonMissing c.cells ≠ []) :
    ∃ c', imputeCol c = .ok c' ∧
      ((∀ x ∈ c.cells, x = Cell.missing) → ∀ x ∈ c'.cells, x = Cell.missing) := by
  by_cases hdt : c.dtype = DType.numeric
  · refine ⟨{ c with cells := imputeNumeric c.cells }, ?_, ?_⟩
    · unfold imputeCol
      rw [if_pos hdt]
    · intro hall
      rw [imputeNumeric_of_all_missing c.cells hall]
      exact hall
  · have hne : nonMissing c.cells ≠ [] := by
      rcases h with h | h
      · exact absurd h hdt
      · exact h
    obtain ⟨m, hm, hmem, hcnt, hub, htie⟩ := modeCell_spec c.cells hne
    refine ⟨{ c with cells := fillMissing m c.cells }, ?_, ?_⟩
    · unfold imputeCol
      rw [if_neg hdt, hm]
    · intro hall
      exfalso
      obtain ⟨x, hx⟩ := List.exists_mem_of_ne_nil _ hne
      have hxf := List.mem_filter.mp hx
      have hxne : x ≠ Cell.missing := by simpa using hxf.2
      exact hxne (hall x hxf.1)

theorem imputeDF_ok (df : DF)
    (h : ∀ c ∈ df, c.dtype = DType.numeric ∨ nonMissing c.cells ≠ []) :
    ∃ df4, imputeDF df = .ok df4 ∧ df4.length = df.length ∧
      ∀ k : ℕ, ∀ hk : k < df.length, ∀ hk4 : k < df4.length,
        (∀ x ∈ (df.get ⟨k, hk⟩).cells, x = Cell.missing) →
          ∀ x ∈ (df4.get ⟨k, hk4⟩).cells, x = Cell.missing := by
  induction df with
  | nil => exact ⟨[], rfl, rfl, by intro k hk; simp at hk⟩
  | cons c cs ih =>
      obtain ⟨c', hc', hcp⟩ := imputeCol_ok c (h c (by simp))
      obtain ⟨cs4, hcs4, hlen, hpres⟩ := ih (fun x hx => h x (by simp [hx]))
      refine ⟨c' :: cs4, ?_, by simp [hlen], ?_⟩
      · unfold imputeDF
        rw [hc', hcs4]
      · intro k hk hk4 hall x hx
        cases k with
        | zero =>
            exact hcp (by simpa using hall) x (by simpa using hx)
        | succ k' =>
            have hk' : k' < cs.length := by simpa using hk
            have hk4' : k' < cs4.length := by simpa using hk4
            exact hpres k' hk' hk4' (by simpa using hall) x (by simpa using hx)

/-! #### Claim C4: free-form text columns are coerced to missing wholesale -/

/-- A dataset whose text column satisfies all of the claim's hypotheses but
whose date-named column is entirely unparseable. -/
def exC4err : DF :=
  [⟨"Notes", DType.object, [.str "hello", .str "world"]⟩,
   ⟨"Test_Date", DType.object, [.str "bad", .str "worse"]⟩]

/-- C4 counterexample: the claim, quantified over *every* dataset containing
such a text column, is false: in `exC4err` the `Notes` column satisfies all
of the claim's hypotheses (no "date" in its mapped name, no cell parses as a
number, a non-sentinel value is present), yet `clean_data` raises — the
`Test_Date` column is date-coerced to all-NaT, and `mode()[0]` on an
entirely-missing non-numeric column raises a KeyError — so no
"Cleaned Data" section is written at all. -/
theorem C4_counterexample :
    hasDateName (headerMapping "Notes") = false ∧
    parseNumeric "hello" = none ∧
    parseNumeric "world" = none ∧
    "hello" ∉ sentinels ∧
    clean_data exC4err = .error (CleanError.modeIndexError "Test Date") := by decide

/-- C4 (amended): for every input dataset with a free-form text (object)
column whose mapped name does not contain "date", in which no cell parses as
a number, and which contains at least one non-sentinel value, *provided*
every column of the coerced dataset is either numeric or has a non-missing
value (otherwise `mode()[0]` raises a KeyError and nothing is written — see
the counterexample), `clean_data` coerces every cell of that column to
missing, the column's mean is itself missing, every cell of the column is
missing in the written output, no error is raised, and none of the original
text values appears in the output. -/
theorem C4_text_column_destroyed (df : DF) (j : ℕ)
    (hok : ∀ c ∈ coerced df, c.dtype = DType.numeric ∨ nonMissing c.cells ≠ [])
    (hj : j < df.length)
    (hcolty : (df.get ⟨j, hj⟩).dtype = DType.object)
    (hname : hasDateName (headerMapping ((df.get ⟨j, hj⟩).name)) = false)
    (hcells : ∀ x ∈ (df.get ⟨j, hj⟩).cells,
        x = Cell.missing ∨ ∃ s, x = Cell.str s ∧ parseNumeric s = none)
    (hsome : ∃ s, Cell.str s ∈ (df.get ⟨j, hj⟩).cells ∧ s ∉ sentinels) :
    ∃ out meta, clean_data df = .ok (out, meta) ∧
      ∃ h2 : j < out.length, (∀ x ∈ (out.get ⟨j, h2⟩).cells, x = Cell.missing) ∧
        ∀ s : String, Cell.str s ∉ (out.get ⟨j, h2⟩).cells := by
  have hcoer : coerced df = df.map (fun c =>
      coerceNumCol (coerceDateCol { c with name := headerMapping c.name })) := by
    simp [coerced, numCoerceDF, dateCoerceDF, renameColumns, List.map_map]
  have hj' : j < (coerced df).length := by rw [hcoer]; simpa using hj
  have hm' : ∀ x ∈ ((coerced df).get ⟨j, hj'⟩).cells, x = Cell.missing := by
    have hgj : (coerced df).get ⟨j, hj'⟩ =
        coerceNumCol (coerceDateCol { df.get ⟨j, hj⟩ with
          name := headerMapping (df.get ⟨j, hj⟩).name }) := by
      simp [hcoer, List.get_eq_getElem, List.getElem_map]
    have hdcj : coerceDateCol { df.get ⟨j, hj⟩ with
        name := headerMapping (df.get ⟨j, hj⟩).name } =
        { df.get ⟨j, hj⟩ with name := headerMapping (df.get ⟨j, hj⟩).name } := by
      unfold coerceDateCol
      rw [if_neg (by simp only []; simpa [List.get_eq_getElem] using hname)]
    rw [hgj, hdcj]
    unfold coerceNumCol
    rw [if_pos (by simpa using hcolty)]
    intro x hx
    simp only at hx
    obtain ⟨y, hy, hyx⟩ := List.mem_map.mp hx
    subst hyx
    rcases hcells y hy with h | ⟨s, hs, hp⟩
    · subst h; rfl
    · subst hs
      by_cases hsent : s ∈ sentinels
      · simp [replaceSentinel, hsent, toNumericCell]
      · simp [replaceSentinel, hsent, toNumericCell, hp]
  obtain ⟨df4, him, hlen4, hpres⟩ := imputeDF_ok (coerced df) hok
  have hj4 : j < df4.length := by omega
  have hm4 : ∀ x ∈ df4[j].cells, x = Cell.missing := by
    have := hpres j hj' hj4 hm'
    simpa [List.get_eq_getElem] using this
  obtain ⟨h2, hout⟩ := dedupDF_all_missing df4 j hj4 hm4
  refine ⟨dedupDF df4, mkMetadata (df.map (fun c => c.name)) (dedupDF df4), ?_, h2, hout,
    fun s hs => ?_⟩
  · simp only [clean_data, him, Except.map]
  · have := hout _ hs
    simp at this

/-- A dataset of the repository's flagship shape: a free-form notes column
next to a parseable date column. -/
def exC4 : DF :=
  [⟨"Notes", DType.object, [.str "hello", .str "N/A"]⟩,
   ⟨"Test_Date", DType.object, [.str "2021-01-05", .str "bad"]⟩]

/-- C4 witness: the amended statement on `exC4` at its text column (the date
column is parseable, so imputation succeeds on it). -/
theorem C4_witness :
    ∃ out meta, clean_data exC4 = .ok (out, meta) ∧
      ∃ h2 : 0 < out.length, (∀ x ∈ (out.get ⟨0, h2⟩).cells, x = Cell.missing) ∧
        ∀ s : String, Cell.str s ∉ (out.get ⟨0, h2⟩).cells :=
  C4_text_column_destroyed exC4 0 (by decide) (by decide) (by decide) (by decide)
    (by
      intro x hx
      have hx2 : x = Cell.str "hello" ∨ x = Cell.str "N/A" := by
        simpa [exC4] using hx
      rcases hx2 with h | h
      · exact Or.inr ⟨"hello", h, by decide⟩
      · exact Or.inr ⟨"N/A", h, by decide⟩)
    ⟨"hello", by decide, by decide⟩

/-! #### Claim C5: mode imputation and its tie-break -/

/-- The column state the spec's tie scenario reaches at imputation: a date
column with two distinct dates, each occurring once, and one missing cell,
the *later* date occurring first. -/
def exC5col : Col := ⟨"Test Date", DType.datetime, [.date 20210105, .missing, .date 20210102]⟩

/-- Modelled from the spec's words for the claimed tie-break: "the tied value
that occurs first in the column's order" — the first non-missing value (in
column order) whose multiplicity is maximal. -/
def firstMostFrequent (cells : List Cell) : Option Cell :=
  (nonMissing cells).find? (fun v => (nonMissing cells).count v == maxCount cells)

/-- C5 counterexample: on a date column `[2021-01-05, missing, 2021-01-02]`
with both dates tied at one occurrence, imputation fills with `2021-01-02`
(pandas `mode()` returns its result sorted ascending, so `[0]` is the
*smallest* tied value), not with the first-occurring tied value
`2021-01-05` as claimed. -/
theorem C5_counterexample :
    imputeCol exC5col =
      .ok ⟨"Test Date", DType.datetime, [.date 20210105, .date 20210102, .date 20210102]⟩ ∧
    firstMostFrequent exC5col.cells = some (.date 20210105) ∧
    (Cell.date 20210102 : Cell) ≠ Cell.date 20210105 := by decide

/-- C5 (amended): for every non-numeric column with at least one non-missing
value, imputation replaces every missing cell with a single most frequent
non-missing value, and when several values are tied for most frequent the one
chosen is the *smallest* tied value in the column's value ordering (pandas
`mode()` sorts its result ascending and `[0]` takes its head) — not the
first-occurring one; after imputation no cell of the column is missing. -/
theorem C5_amended (c : Col)
    (hdt : c.dtype ≠ DType.numeric)
    (hne : nonMissing c.cells ≠ []) :
    ∃ m, modeCell c.cells = some m ∧
      imputeCol c = .ok { c with cells := fillMissing m c.cells } ∧
      m ∈ nonMissing c.cells ∧
      (∀ v ∈ nonMissing c.cells,
        (nonMissing c.cells).count v ≤ (nonMissing c.cells).count m) ∧
      (∀ v ∈ nonMissing c.cells,
        (nonMissing c.cells).count v = (nonMissing c.cells).count m →
          cellLE m v = true) ∧
      Cell.missing ∉ fillMissing m c.cells := by
  obtain ⟨m, hm, hmem, hcnt, hub, htie⟩ := modeCell_spec c.cells hne
  have hmne : m ≠ Cell.missing := by
    have := List.mem_filter.mp hmem
    simpa using this.2
  refine ⟨m, hm, ?_, hmem, ?_, ?_, not_missing_mem_fillMissing _ _ hmne⟩
  · unfold imputeCol
    rw [if_neg hdt, hm]
  · intro v hv
    rw [hcnt]
    exact hub v hv
  · intro v hv hvc
    exact htie v hv (by rw [← hcnt]; exact hvc)

/-- A non-numeric column with missing cells and a clear mode. -/
def exC5w : Col := ⟨"Test Date", DType.datetime, [.date 3, .missing, .date 3, .date 9]⟩

/-- C5 witness: the amended statement on a concrete date column. -/
theorem C5_amended_witness :
    ∃ m, modeCell exC5w.cells = some m ∧
      imputeCol exC5w = .ok { exC5w with cells := fillMissing m exC5w.cells } ∧
      m ∈ nonMissing exC5w.cells ∧
      (∀ v ∈ nonMissing exC5w.cells,
        (nonMissing exC5w.cells).count v ≤ (nonMissing exC5w.cells).count m) ∧
      (∀ v ∈ nonMissing exC5w.cells,
        (nonMissing exC5w.cells).count v = (nonMissing exC5w.cells).count m →
          cellLE m v = true) ∧
      Cell.missing ∉ fillMissing m exC5w.cells :=
  C5_amended exC5w (by decide) (by decide)

/-! #### Mean arithmetic for C6 -/

theorem cellNums_fill_sum (m : ℚ) (cells : List Cell) :
    (cellNums (fillMissing (Cell.num m) cells)).sum
      = (cellNums cells).sum + (countMissing cells : ℚ) * m := by
  induction cells with
  | nil => simp [cellNums, fillMissing, countMissing]
  | cons x t ih =>
      cases x with
      | missing =>
          have h1 : fillMissing (Cell.num m) (Cell.missing :: t)
              = Cell.num m :: fillMissing (Cell.num m) t := by simp [fillMissing]
          have h2 : cellNums (Cell.num m :: fillMissing (Cell.num m) t)
              = m :: cellNums (fillMissing (Cell.num m) t) := rfl
          have h3 : cellNums (Cell.missing :: t) = cellNums t := rfl
          have h4 : countMissing (Cell.missing :: t) = countMissing t + 1 := by
            simp [countMissing]
          rw [h1, h2, h3, h4, List.sum_cons, ih]
          push_cast
          ring
      | num q =>
          have h1 : fillMissing (Cell.num m) (Cell.num q :: t)
              = Cell.num q :: fillMissing (Cell.num m) t := by simp [fillMissing]
          have h2 : cellNums (Cell.num q :: fillMissing (Cell.num m) t)
              = q :: cellNums (fillMissing (Cell.num m) t) := rfl
          have h3 : cellNums (Cell.num q :: t) = q :: cellNums t := rfl
          have h4 : countMissing (Cell.num q :: t) = countMissing t := by
            simp [countMissing]
          rw [h1, h2, h3, h4, List.sum_cons, List.sum_cons, ih]
          ring
      | str s =>
          have h1 : fillMissing (Cell.num m) (Cell.str s :: t)
              = Cell.str s :: fillMissing (Cell.num m) t := by simp [fillMissing]
          have h2 : cellNums (Cell.str s :: fillMissing (Cell.num m) t)
              = cellNums (fillMissing (Cell.num m) t) := rfl
          have h3 : cellNums (Cell.str s :: t) = cellNums t := rfl
          have h4 : countMissing (Cell.str s :: t) = countMissing t := by
            simp [countMissing]
          rw [h1, h2, h3, h4, ih]
      | date d =>
          have h1 : fillMissing (Cell.num m) (Cell.date d :: t)
              = Cell.date d :: fillMissing (Cell.num m) t := by simp [fillMissing]
          have h2 : cellNums (Cell.date d :: fillMissing (Cell.num m) t)
              = cellNums (fillMissing (Cell.num m) t) := rfl
          have h3 : cellNums (Cell.date d :: t) = cellNums t := rfl
          have h4 : countMissing (Cell.date d :: t) = countMissing t := by
            simp [countMissing]
          rw [h1, h2, h3, h4, ih]

theorem cellNums_fill_length (m : ℚ) (cells : List Cell) :
    (cellNums (fillMissing (Cell.num m) cells)).length
      = (cellNums cells).length + countMissing cells := by
  induction cells with
  | nil => simp [cellNums, fillMissing, countMissing]
  | cons x t ih =>
      cases x with
      | missing =>
          have h1 : fillMissing (Cell.num m) (Cell.missing :: t)
              = Cell.num m :: fillMissing (Cell.num m) t := by simp [fillMissing]
          have h2 : cellNums (Cell.num m :: fillMissing (Cell.num m) t)
              = m :: cellNums (fillMissing (Cell.num m) t) := rfl
          have h3 : cellNums (Cell.missing :: t) = cellNums t := rfl
          have h4 : countMissing (Cell.missing :: t) = countMissing t + 1 := by
            simp [countMissing]
          rw [h1, h2, h3, h4, List.length_cons, ih]
          omega
      | num q =>
          have h1 : fillMissing (Cell.num m) (Cell.num q :: t)
              = Cell.num q :: fillMissing (Cell.num m) t := by simp [fillMissing]
          have h2 : cellNums (Cell.num q :: fillMissing (Cell.num m) t)
              = q :: cellNums (fillMissing (Cell.num m) t) := rfl
          have h3 : cellNums (Cell.num q :: t) = q :: cellNums t := rfl
          have h4 : countMissing (Cell.num q :: t) = countMissing t := by
            simp [countMissing]
          rw [h1, h2, h3, h4, List.length_cons, List.length_cons, ih]
          omega
      | str s =>
          have h1 : fillMissing (Cell.num m) (Cell.str s :: t)
              = Cell.str s :: fillMissing (Cell.num m) t := by simp [fillMissing]
          have h2 : cellNums (Cell.str s :: fillMissing (Cell.num m) t)
              = cellNums (fillMissing (Cell.num m) t) := rfl
          have h3 : cellNums (Cell.str s :: t) = cellNums t := rfl
          have h4 : countMissing (Cell.str s :: t) = countMissing t := by
            simp [countMissing]
          rw [h1, h2, h3, h4, ih]
      | date d =>
          have h1 : fillMissing (Cell.num m) (Cell.date d :: t)
              = Cell.date d :: fillMissing (Cell.num m) t := by simp [fillMissing]
          have h2 : cellNums (Cell.date d :: fillMissing (Cell.num m) t)
              = cellNums (fillMissing (Cell.num m) t) := rfl
          have h3 : cellNums (Cell.date d :: t) = cellNums t := rfl
          have h4 : countMissing (Cell.date d :: t) = countMissing t := by
            simp [countMissing]
          rw [h1, h2, h3, h4, ih]

/-! #### Claim C6: mean imputation on numeric columns -/

/-- C6: on a numeric column with at least one non-missing value, imputation
replaces every missing cell with the arithmetic mean of the non-missing
values; afterwards no cell is missing, and the mean of the imputed column
equals the pre-imputation mean of the non-missing values exactly (floats are
modelled by ℚ, so "within floating-point tolerance" holds with tolerance 0). -/
theorem C6_mean_imputation (c : Col)
    (hdt : c.dtype = DType.numeric)
    (hq : ∃ q : ℚ, Cell.num q ∈ c.cells) :
    ∃ m, meanOpt c.cells = some m ∧
      m = (cellNums c.cells).sum / ((cellNums c.cells).length : ℚ) ∧
      imputeCol c = .ok { c with cells := fillMissing (Cell.num m) c.cells } ∧
      Cell.missing ∉ fillMissing (Cell.num m) c.cells ∧
      meanOpt (fillMissing (Cell.num m) c.cells) = some m := by
  obtain ⟨q, hqm⟩ := hq
  have hqn : q ∈ cellNums c.cells := List.mem_filterMap.mpr ⟨Cell.num q, hqm, rfl⟩
  have hne : cellNums c.cells ≠ [] := fun h => by rw [h] at hqn; simp at hqn
  have hE : (cellNums c.cells).isEmpty = false := by
    cases hcc : cellNums c.cells with
    | nil => exact absurd hcc hne
    | cons a as => rfl
  have hmean : meanOpt c.cells =
      some ((cellNums c.cells).sum / ((cellNums c.cells).length : ℚ)) := by
    unfold meanOpt
    rw [if_neg (by simp [hE])]
  set m := (cellNums c.cells).sum / ((cellNums c.cells).length : ℚ) with hmdef
  have hlen0 : 0 < (cellNums c.cells).length := List.length_pos.mpr hne
  have hnQ : ((cellNums c.cells).length : ℚ) ≠ 0 := Nat.cast_ne_zero.mpr (by omega)
  refine ⟨m, hmean, hmdef, ?_, ?_, ?_⟩
  · unfold imputeCol
    rw [if_pos hdt]
    unfold imputeNumeric
    rw [hmean]
  · exact not_missing_mem_fillMissing _ _ (by simp)
  · have hsum := cellNums_fill_sum m c.cells
    have hlen := cellNums_fill_length m c.cells
    have hne2 : cellNums (fillMissing (Cell.num m) c.cells) ≠ [] := by
      intro h
      have hl : (cellNums (fillMissing (Cell.num m) c.cells)).length = 0 := by
        rw [h]; rfl
      rw [cellNums_fill_length] at hl
      omega
    have hE2 : (cellNums (fillMissing (Cell.num m) c.cells)).isEmpty = false := by
      cases hcc : cellNums (fillMissing (Cell.num m) c.cells) with
      | nil => exact absurd hcc hne2
      | cons a as => rfl
    unfold meanOpt
    rw [if_neg (by simp [hE2])]
    congr 1
    rw [hsum, hlen, hmdef]
    push_cast
    have hnpos : (0:ℚ) < ((cellNums c.cells).length : ℚ) := by positivity
    have hkpos : (0:ℚ) ≤ (countMissing c.cells : ℚ) := by positivity
    have hnk : ((cellNums c.cells).length : ℚ) + (countMissing c.cells : ℚ) ≠ 0 := by
      positivity
    field_simp
    ring

/-- The claim's example column `[20.0, missing, 22.0]`. -/
def exC6w : Col := ⟨"Temperature (°C)", DType.numeric, [.num 20, .missing, .num 22]⟩

/-- C6 witness: the statement on the claim's example column, whose missing
cell is imputed to the mean 21. -/
theorem C6_witness :
    (∃ m, meanOpt exC6w.cells = some m ∧
      m = (cellNums exC6w.cells).sum / ((cellNums exC6w.cells).length : ℚ) ∧
      imputeCol exC6w = .ok { exC6w with cells := fillMissing (Cell.num m) exC6w.cells } ∧
      Cell.missing ∉ fillMissing (Cell.num m) exC6w.cells ∧
      meanOpt (fillMissing (Cell.num m) exC6w.cells) = some m) ∧
    imputeCol exC6w =
      .ok ⟨"Temperature (°C)", DType.numeric, [.num 20, .num 21, .num 22]⟩ :=
  ⟨C6_mean_imputation exC6w rfl ⟨20, by decide⟩, by decide⟩

/-! #### Claim C7: deduplication -/

/-- C7: row deduplication removes exactly the rows equal to an earlier row
(its survivors are exactly the row values of the input), keeps first
occurrences (the head survives, and of two identical rows only the first is
kept), produces pairwise-distinct survivors in their original relative order
(a sublist of the input), and the dataframe stage is exactly this row-level
deduplication applied to the rows of the post-imputation dataframe. -/
theorem C7_dedup_contract :
    (∀ l : List Row, (dedupRows l).Sublist l) ∧
    (∀ l : List Row, (dedupRows l).Nodup) ∧
    (∀ (l : List Row) (r : Row), r ∈ dedupRows l ↔ r ∈ l) ∧
    (∀ (r : Row) (l : List Row), (dedupRows (r :: l)).head? = some r) ∧
    (∀ r : Row, dedupRows [r, r] = [r]) ∧
    (∀ df : DF, dedupDF df = fromRowsGo (dedupRows (rowsOf df)) 0 df) := by
  refine ⟨fun l => dedupGo_sublist l [], fun l => dedupGo_nodup l [], ?_, ?_, ?_, fun _ => rfl⟩
  · intro l r
    rw [dedupRows, dedupGo_mem]
    simp
  · intro r l
    rw [dedupRows, dedupGo, if_neg (by simp)]
    rfl
  · intro r
    simp [dedupRows, dedupGo]

end App
